import Mathlib

/-!
Verification of the Polaris agent system against its specification.

Shallow embedding of the Python sources:
  - `src/polaris/approval_gate.py`   (risk-gated tool execution)
  - `src/polaris/memory/embedder.py` (vector <-> bytes packing)
  - `src/rlm_wrapper.py`             (ensemble voting)
  - `src/polaris/router.py`          (skill enforcement, ReAct loop)
  - `src/polaris/memory/memory.py`   (semantic and keyword search)
  - `src/polaris/tools/__init__.py`  (tool registry dispatch)

Pure functions are translated directly; effectful dependencies (the LLM, the
tool handlers, the Telegram transport, the user's approval decision) become
explicit function parameters or oracle inputs, and the observable effects
(messages sent, handlers invoked) are recorded in the returned values.
Python floats only appear here as small integer counts divided by small
integer lengths, which we model exactly with rationals; float32 bit patterns
are modelled as 32-bit machine words (naturals below 2^32).
-/

namespace Polaris

/-! ## String helpers

Python's `needle in hay` substring test, on explicit character lists.
`Char.toLower` only folds ASCII letters whereas Python's `str.lower` is
Unicode-aware; every cased character appearing in the embedded constants is
ASCII, so the two agree on all inputs relevant here. -/

def listContainsSub (needle : List Char) : List Char → Bool
  | [] => needle.isEmpty
  | c :: rest => needle.isPrefixOf (c :: rest) || listContainsSub needle rest

/-- Python `needle in hay` (contiguous substring test) on character lists. -/
def containsSub (hay needle : List Char) : Bool :=
  listContainsSub needle hay

/-- Python `s.lower()` as a character list. -/
def lowerChars (s : String) : List Char :=
  s.toList.map Char.toLower

/-! ## Approval gate (`src/polaris/approval_gate.py`) -/

inductive RiskLevel where
  | AUTO
  | CONFIRM
  | CRITICAL
deriving DecidableEq, Repr

/-- The `.value` string of a `RiskLevel` enum member. -/
def RiskLevel.value : RiskLevel → String
  | .AUTO => "AUTO"
  | .CONFIRM => "CONFIRM"
  | .CRITICAL => "CRITICAL"

/-- `TOOL_RISK_MAP` from `approval_gate.py`, verbatim. -/
def TOOL_RISK_MAP : List (String × RiskLevel) :=
  [("arxiv_search", .AUTO),
   ("get_schedule", .AUTO),
   ("list_physics_jobs", .AUTO),
   ("phd_handle", .AUTO),
   ("download_pdf", .CONFIRM),
   ("analyze_paper", .CONFIRM),
   ("check_physics_job", .CONFIRM),
   ("analyze_emails", .CONFIRM),
   ("submit_physics_job", .CRITICAL),
   ("send_email_reply", .CRITICAL)]

/-- `TOOL_RISK_MAP.get(tool_name, RiskLevel.CONFIRM)`. -/
def riskFor (tool_name : String) : RiskLevel :=
  (TOOL_RISK_MAP.lookup tool_name).getD .CONFIRM

/-- Observable outcome of `ApprovalGate.execute_with_approval`: the returned
dict fields plus the two effects the claims talk about (how many transport
messages were sent, and whether `execute_fn` was invoked). -/
structure ApprovalOutcome (α : Type) where
  approved : Bool
  result : Option α
  approval_level : String
  messagesSent : Nat
  execCalled : Bool
deriving DecidableEq, Repr

/-- Shallow embedding of `ApprovalGate.execute_with_approval`.

`hasBot`/`hasChatId` model `bot is not None` / `chat_id is not None`.
`decision` is the oracle for `_request_approval`: `some b` means the user's
callback resolved the future with `b`; `none` means the wait timed out (in
which case `_request_approval` sends one extra timeout notification and
returns `False`). `_request_approval` always sends the inline-keyboard
message itself, hence the `1 +`. -/
def execute_with_approval {α β : Type} (tool_name : String) (tool_args : β)
    (execute_fn : β → α) (hasBot hasChatId : Bool) (decision : Option Bool) :
    ApprovalOutcome α :=
  let risk := riskFor tool_name
  if risk = .AUTO then
    { approved := true, result := some (execute_fn tool_args),
      approval_level := risk.value, messagesSent := 0, execCalled := true }
  else if !hasBot || !hasChatId then
    { approved := false, result := none,
      approval_level := risk.value, messagesSent := 0, execCalled := false }
  else
    let msgs := 1 + (if decision.isNone then 1 else 0)
    let approved := decision.getD false
    if approved then
      { approved := true, result := some (execute_fn tool_args),
        approval_level := risk.value, messagesSent := msgs, execCalled := true }
    else
      { approved := false, result := none,
        approval_level := risk.value, messagesSent := msgs, execCalled := false }

/-! ## Embedder byte packing (`src/polaris/memory/embedder.py`)

`struct.pack(f"{n}f", *v)` writes each component as a 4-byte IEEE-754
float32; `struct.unpack` reads them back. The serialisation logic is bit
exact, so we model each float32 component by its 32-bit pattern (a natural
below 2^32) and the byte stream as a list of bytes (naturals below 256),
in the platform's fixed byte order. -/

/-- The four bytes of one 32-bit word, least significant first. -/
def word32ToBytes (w : Nat) : List Nat :=
  [w % 256, w / 256 % 256, w / 65536 % 256, w / 16777216 % 256]

/-- `OllamaEmbedder.to_bytes`: concatenate the 4-byte encodings. -/
def to_bytes (v : List Nat) : List Nat :=
  v.flatMap word32ToBytes

/-- `OllamaEmbedder.from_bytes`: regroup `len(blob) // 4` words. -/
def from_bytes : List Nat → List Nat
  | b0 :: b1 :: b2 :: b3 :: rest =>
      (b0 + 256 * b1 + 65536 * b2 + 16777216 * b3) :: from_bytes rest
  | _ => []

/-! ## Ensemble voter (`src/rlm_wrapper.py`)

`EnsembleVoter.vote_classify` gathers `n_inferences` results (strings, with
failed inferences rendered as `"ERROR: …"` strings by `_single_inference`),
keeps the ones equal to a valid label, checks the quorum, and takes the
majority with a confidence threshold. The repository does not ship
`config/RLM_CONFIG.yaml`, so the configuration values are free parameters
here; the spec fixes `fallback_category = UNCERTAIN`. Confidence is a ratio
of small naturals, modelled exactly in `ℚ`. -/

structure RLMConfig where
  n_inferences : Nat
  min_quorum : Nat
  confidence_threshold : ℚ
  fallback_category : String
deriving DecidableEq, Repr

/-- Membership test `r in ['ACTION', 'FYI']` (on an `isinstance(r, str)` result). -/
def validVote (r : String) : Bool :=
  r = "ACTION" || r = "FYI"

/-- The `successful_votes` filter of `vote_classify`. -/
def successfulVotes (results : List String) : List String :=
  results.filter validVote

/-- Distinct values in first-occurrence order — the insertion order of the
keys of `collections.Counter(votes)`. -/
def firstSeen : List String → List String
  | [] => []
  | x :: xs => x :: (firstSeen xs).filter (fun y => y ≠ x)

/-- Number of occurrences of `l` in `votes` (a `Counter` entry). -/
def countOf (votes : List String) (l : String) : Nat :=
  (votes.filter (fun v => v = l)).length

/-- `Counter(votes).most_common(1)[0]`: the maximal-count value, with ties
resolved in favour of the first-inserted key (Python's `most_common` sorts
stably by descending count over insertion-ordered items). Python raises on
an empty counter; `vote_classify` only reaches it with a non-empty list when
`min_quorum ≥ 1`, and we return a dummy on `[]`. -/
def voteStep (votes : List String) (best : String × Nat) (l : String) :
    String × Nat :=
  if countOf votes l > best.2 then (l, countOf votes l) else best

/-- The winning `(label, count)` pair — see `voteStep` above. -/
def bestLabel (votes : List String) : String × Nat :=
  match firstSeen votes with
  | [] => ("", 0)
  | k :: ks => ks.foldl (voteStep votes) (k, countOf votes k)

/-- Shallow embedding of `EnsembleVoter.vote_classify`, taking the list of
the `n_inferences` raw inference results as input. -/
def vote_classify (cfg : RLMConfig) (results : List String) :
    String × ℚ × List String :=
  let succ := successfulVotes results
  if succ.length < cfg.min_quorum then
    (cfg.fallback_category, 0, succ)
  else
    let best := bestLabel succ
    let confidence : ℚ := (best.2 : ℚ) / (succ.length : ℚ)
    if confidence < cfg.confidence_threshold then
      (cfg.fallback_category, confidence, succ)
    else
      (best.1, confidence, succ)

/-! ## Skill enforcement (`src/polaris/router.py`, `_resolve_skill_enforcement`) -/

/-- A matched skill-info dict, with the fields the router reads.
`strict_mode = none` models a dict without the `"strict_mode"` key
(`skill.get("strict_mode", True)` then yields `True`). -/
structure Skill where
  name : String
  triggers : List String
  requires_tool : Bool
  strict_mode : Option Bool
  tool_chain : List String
  tools_required : List String
deriving DecidableEq, Repr

/-- A registered tool definition, with the fields the router reads:
the name and `input_schema["required"]`. -/
structure ToolDef where
  name : String
  required : List String
deriving DecidableEq, Repr

/-- The enforcement-policy dict built by `_resolve_skill_enforcement`. -/
structure Enforcement where
  requires_tool : Bool
  strict_mode : Bool
  allowed_tools : List String
  chain_tools : List String
  preflight_tools : List String
deriving DecidableEq, Repr

/-- Append `n` unless already present (`if name not in l: l.append(name)`). -/
def addUnique (l : List String) (n : String) : List String :=
  if n ∈ l then l else l ++ [n]

/-- `known_tools = {t["name"]: t for t in self.tools}` then `.get(name)`:
on duplicate names the later tool wins, hence the `reverse`. -/
def knownToolLookup (tools : List ToolDef) (n : String) : Option ToolDef :=
  tools.reverse.find? (fun t => t.name = n)

/-- `ordered = tool_chain if tool_chain else tools_required`. -/
def chosenTools (s : Skill) : List String :=
  if s.tool_chain.isEmpty then s.tools_required else s.tool_chain

/-- Body of the `for name in ordered` loop of `_resolve_skill_enforcement`. -/
def chainStep (tools : List ToolDef) (st : Enforcement) (name : String) :
    Enforcement :=
  let st := { st with
    allowed_tools := addUnique st.allowed_tools name,
    chain_tools := addUnique st.chain_tools name }
  match knownToolLookup tools name with
  | none => st
  | some td =>
      if td.required.isEmpty then
        { st with preflight_tools := addUnique st.preflight_tools name }
      else st

/-- Body of the `for skill in matched_skills` loop: skills without
`requires_tool` are skipped entirely (`continue`). -/
def enfStep (tools : List ToolDef) (st : Enforcement) (skill : Skill) :
    Enforcement :=
  if skill.requires_tool then
    (chosenTools skill).foldl (chainStep tools)
      { st with
        requires_tool := true,
        strict_mode := st.strict_mode || skill.strict_mode.getD true }
  else st

/-- Shallow embedding of `PolarisRouter._resolve_skill_enforcement`. -/
def resolve_skill_enforcement (tools : List ToolDef) (matched : List Skill) :
    Enforcement :=
  matched.foldl (enfStep tools) ⟨false, false, [], [], []⟩

/-- The claim's reading of the policy: `requires_tool` is the OR of the
matched skills' `requires_tool` flags. -/
def claimRequiresTool (matched : List Skill) : Bool :=
  matched.any (·.requires_tool)

/-- The claim's reading: `strict_mode` is the OR of the matched skills'
`strict_mode` flags (a flag that is absent is not set). -/
def claimStrictMode (matched : List Skill) : Bool :=
  matched.any (fun s => s.strict_mode.getD false)

/-- The claim's reading: ordered first-seen union of every matched skill's
`tool_chain` (else `tools_required`). -/
def claimAllowedTools (matched : List Skill) : List String :=
  (matched.flatMap chosenTools).foldl addUnique []

/-! ## Memory search (`src/polaris/memory/memory.py`)

Rows are given in table-scan order; the tables are append-only with an
auto-increment primary key, so a plain `SELECT` returns them in ascending
id order, conversations scanned before knowledge. The embedder's
`cosine_similarity` is float-valued in the source; the ranking logic is
independent of the particular similarity function, which therefore becomes
the parameter `sim` (rational-valued scores). -/

structure ConvRow where
  id : Nat
  content : String
  embedding : Option (List ℚ)
deriving DecidableEq

structure KnowRow where
  id : Nat
  title : String
  content : String
  category : String
  embedding : Option (List ℚ)
deriving DecidableEq

/-- One search hit, as the dicts built by `_semantic_search` /
`_keyword_search` (the knowledge-only `category` key is dropped). -/
structure Hit where
  source_table : String
  id : Nat
  content : String
  score : ℚ
deriving DecidableEq

/-- Candidate from a conversation row (skipped when `embedding IS NULL`). -/
def convHitOf (sim : List ℚ → List ℚ → ℚ) (queryVec : List ℚ) (r : ConvRow) :
    Option Hit :=
  r.embedding.map fun v => ⟨"conversation", r.id, r.content, sim queryVec v⟩

/-- Candidate from a knowledge row (skipped when `embedding IS NULL`). -/
def knowHitOf (sim : List ℚ → List ℚ → ℚ) (queryVec : List ℚ) (r : KnowRow) :
    Option Hit :=
  r.embedding.map fun v =>
    ⟨"knowledge", r.id, r.title ++ ": " ++ r.content, sim queryVec v⟩

/-- The `candidates` list of `_semantic_search`: all embedded conversation
rows, then all embedded knowledge rows, in scan order. -/
def semanticCandidates (sim : List ℚ → List ℚ → ℚ) (queryVec : List ℚ)
    (convs : List ConvRow) (knows : List KnowRow) : List Hit :=
  convs.filterMap (convHitOf sim queryVec) ++ knows.filterMap (knowHitOf sim queryVec)

/-- The comparator of `candidates.sort(key=score, reverse=True)`:
`a` may precede `b` iff `a.score ≥ b.score`. -/
def scoreLe (a b : Hit) : Bool :=
  decide (b.score ≤ a.score)

/-- Shallow embedding of `PolarisMemory._semantic_search`. Python's
`list.sort` is stable; `List.mergeSort` is the stable sort. -/
def semantic_search (sim : List ℚ → List ℚ → ℚ) (queryVec : List ℚ)
    (convs : List ConvRow) (knows : List KnowRow) (top_k : Nat) : List Hit :=
  ((semanticCandidates sim queryVec convs knows).mergeSort scoreLe).take top_k

/-- SQLite `column LIKE '%q%'` for a pattern built by interpolating the
query: a substring test, case-insensitive on ASCII. (Queries containing the
LIKE metacharacters `%`/`_` are not modelled.) -/
def likeMatch (content q : String) : Bool :=
  containsSub (lowerChars content) (lowerChars q)

/-- `ORDER BY id DESC` as a comparator. -/
def rowIdDesc {α : Type} (idOf : α → Nat) (a b : α) : Bool :=
  decide (idOf b ≤ idOf a)

/-- The first query of `_keyword_search`: matching conversation rows,
`ORDER BY id DESC LIMIT top_k`, rendered as hit dicts with score `0.0`. -/
def convKeywordHits (q : String) (convs : List ConvRow) (top_k : Nat) : List Hit :=
  (((convs.filter fun r => likeMatch r.content q).mergeSort
      (rowIdDesc ConvRow.id)).take top_k).map
    fun r => ⟨"conversation", r.id, r.content, 0⟩

/-- The second query of `_keyword_search`: knowledge rows whose content or
title matches, `ORDER BY id DESC LIMIT remaining`. -/
def knowKeywordHits (q : String) (knows : List KnowRow) (remaining : Nat) : List Hit :=
  (((knows.filter fun r => likeMatch r.content q || likeMatch r.title q).mergeSort
      (rowIdDesc KnowRow.id)).take remaining).map
    fun r => ⟨"knowledge", r.id, r.title ++ ": " ++ r.content, 0⟩

/-- Shallow embedding of `PolarisMemory._keyword_search`: conversation
matches newest-first up to `top_k`, then knowledge matches for the
remaining slots only. -/
def keyword_search (q : String) (convs : List ConvRow) (knows : List KnowRow)
    (top_k : Nat) : List Hit :=
  let results := convKeywordHits q convs top_k
  let remaining := top_k - results.length
  if remaining > 0 then results ++ knowKeywordHits q knows remaining
  else results

/-! ## Tool registry (`src/polaris/tools/__init__.py` and
`PolarisRouter._execute_tool`)

A handler either returns a payload string or raises; we model it as
`String → Except String String` with `Except.error` carrying the rendered
exception message. `_HANDLERS` is the discovered dict (unique keys). -/

/-- One registered handler: raw argument string to outcome. -/
def Handler : Type :=
  String → Except String String

/-- `json.dumps({"error": f"Unknown tool: {name}"})` for a name without
JSON-escaped characters. -/
def unknownToolError (name : String) : String :=
  "\x7b\"error\": \"Unknown tool: " ++ name ++ "\"\x7d"

/-- Shallow embedding of the registry's `execute_tool`: unknown names get
the JSON error string; otherwise the handler runs and any exception it
raises propagates to the caller. -/
def execute_tool (handlers : List (String × Handler)) (name args : String) :
    Except String String :=
  match handlers.lookup name with
  | none => .ok (unknownToolError name)
  | some h => h args

/-- Shallow embedding of `PolarisRouter._execute_tool` (the in-loop caller):
`str(result)` on success, and `f"Tool '{name}' failed: {e}"` when the
handler raised. (The `ImportError` branch for a missing tools package is
not modelled; the registry is assumed importable.) -/
def router_execute_tool (handlers : List (String × Handler)) (name args : String) :
    String :=
  match execute_tool handlers name args with
  | .ok s => s
  | .error e => "Tool '" ++ name ++ "' failed: " ++ e

/-- The spec's notion of a JSON error string: a serialised JSON object whose
first key is `"error"`, as produced by `json.dumps({"error": …})`. -/
def isJsonErrorObject (s : String) : Bool :=
  ("\x7b\"error\"").toList.isPrefixOf s.toList

/-! ## Router ReAct loop (`src/polaris/router.py`, `_route_ollama`)

The two effectful collaborators become oracles: `llm : Nat → LLMOutcome`
gives the outcome of the chat-completion request of each iteration, and
`exec : String → String → String` gives the result text of
`_execute_tool(name, args)` (tool arguments are kept as their raw JSON
text, which the claims never inspect). Prompt assembly, model selection and
message-list bookkeeping have no effect on the returned
`{response, tools_used}` dict and are not modelled. -/

/-- `PolarisRouter.TOOL_KEYWORDS`, verbatim. -/
def TOOL_KEYWORDS : List (String × List String) :=
  [("search_arxiv", ["arxiv", "paper", "논문", "검색", "연구", "search"]),
   ("search_semantic_scholar", ["paper", "논문", "semantic", "scholar", "검색"]),
   ("download_paper_pdf", ["download", "pdf", "다운로드", "다운"]),
   ("analyze_paper_gemini", ["analyze", "분석", "paper", "논문"]),
   ("analyze_paper_claude", ["analyze", "분석", "paper", "논문"]),
   ("get_calendar_briefing",
    ["calendar", "schedule", "일정", "캘린더", "스케줄", "오늘 일정", "내일 일정"]),
   ("add_calendar_event", ["calendar", "event", "일정 추가", "약속 추가", "일정 등록"]),
   ("analyze_emails", ["email", "mail", "이메일", "메일"]),
   ("analyze_single_email", ["email", "mail", "이메일", "메일"]),
   ("fetch_mail_digest", ["메일", "이메일", "요약", "digest", "inbox"]),
   ("fetch_urgent_mails", ["긴급", "urgent", "메일", "이메일"]),
   ("fetch_promo_deals", ["딜", "프로모션", "할인", "coupon", "deal"]),
   ("propose_mail_actions", ["메일 정리", "정리", "archive", "라벨", "actions"]),
   ("execute_mail_actions", ["정리 실행", "archive", "라벨 적용", "mark read"]),
   ("monitor_hpc_job", ["hpc", "job", "vasp", "계산", "클러스터", "잡"]),
   ("check_hpc_connection", ["hpc", "connection", "ssh", "폴라리스", "서버"]),
   ("physics_agent_handle", ["physics", "물리", "vasp", "dft", "시뮬레이션"]),
   ("phd_agent_handle", ["phd", "박사", "연구 진행"])]

/-- One entry of `choice.message.tool_calls`. -/
structure ToolCall where
  callId : String
  name : String
  args : String
deriving DecidableEq

/-- Outcome of one `client.chat.completions.create` call. -/
inductive LLMOutcome where
  | success (finish_reason : String) (content : Option String)
      (tool_calls : List ToolCall)
  | authError
  | apiError (msg : String)

/-- The `{response, tools_used}` dict returned by the router. -/
structure RouteResult where
  response : String
  tools_used : List String
deriving DecidableEq

/-- `PolarisRouter._looks_like_tool_error`, verbatim. -/
def looksLikeToolError (result_text : String) : Bool :=
  let lower := lowerChars result_text
  (containsSub lower ("tool '").toList && containsSub lower ("failed").toList) ||
    containsSub lower ("\"error\"").toList || containsSub lower ("'error'").toList

/-- The early refusal when a skill requires tools but none are available. -/
def REFUSAL_NO_SKILL_TOOLS : String :=
  "이 요청은 도구 실행이 필수인데, 사용 가능한 스킬 도구를 찾지 못했어. 스킬 설정(tool_chain/tools_required)을 확인해줘."

/-- The refusal returned when `requires_tool` holds but no tool execution
succeeded. -/
def REFUSAL_NO_SUCCESS : String :=
  "이 요청은 도구 실행 결과가 있어야 답변할 수 있어. 현재 도구 호출이 없었거나 모두 실패해서 추정 답변은 제공하지 않을게."

/-- Response on `AuthenticationError`. -/
def AUTH_ERROR_MSG : String :=
  "Authentication error: please check the API configuration."

/-- Fallback text when the loop exhausts its iterations with no content. -/
def EXHAUSTED_MSG : String :=
  "I was unable to complete the request within the allowed steps."

/-- Python's `s or default` on an optional string (`None` and `""` are falsy). -/
def pyOr (s : Option String) (d : String) : String :=
  match s with
  | none => d
  | some s => if s = "" then d else s

/-- `PolarisRouter._select_relevant_tools`: keep a tool iff one of its
keywords occurs in the lowercased message. -/
def selectRelevantTools (tools : List ToolDef) (message : String) : List ToolDef :=
  tools.filter fun t =>
    ((TOOL_KEYWORDS.lookup t.name).getD []).any fun kw =>
      containsSub (lowerChars message) kw.toList

/-- `PolarisRouter._get_tools_by_name`: registry order is preserved. -/
def getToolsByName (tools : List ToolDef) (names : List String) : List ToolDef :=
  tools.filter (fun t => t.name ∈ names)

/-- `SkillRegistry.match` (`src/polaris/skills/registry.py`): every indexed
skill one of whose triggers occurs case-insensitively in the message. -/
def skillMatch (index : List Skill) (message : String) : List Skill :=
  if message = "" then []
  else
    index.filter fun s =>
      s.triggers.any fun t => containsSub (lowerChars message) (lowerChars t)

/-- The branch condition `finish_reason == "tool_calls" or message.tool_calls`. -/
def isToolCallTurn (finish_reason : String) (tool_calls : List ToolCall) : Bool :=
  finish_reason = "tool_calls" || !tool_calls.isEmpty

/-- The `for iteration in range(self.max_iterations)` loop of
`_route_ollama`. `prev` carries `choice.message.content` of the previous
iteration for the exhaustion fallback (Python would raise `NameError` on
`max_iterations = 0`; theorems about the fallback assume at least one
iteration). -/
def routeLoop (exec : String → String → String) (requiresTool : Bool)
    (llm : Nat → LLMOutcome) (iter fuel : Nat)
    (tools_used successful : List String) (prev : Option String) : RouteResult :=
  match fuel with
  | 0 => ⟨pyOr prev EXHAUSTED_MSG, tools_used⟩
  | fuel + 1 =>
    match llm iter with
    | .authError => ⟨AUTH_ERROR_MSG, tools_used⟩
    | .apiError msg => ⟨"API error: " ++ msg, tools_used⟩
    | .success finish_reason content tool_calls =>
      if isToolCallTurn finish_reason tool_calls then
        routeLoop exec requiresTool llm (iter + 1) fuel
          (tools_used ++ tool_calls.map (·.name))
          (successful ++
            (tool_calls.filter fun tc =>
              !looksLikeToolError (exec tc.name tc.args)).map (·.name))
          content
      else
        if requiresTool && successful.isEmpty then
          ⟨REFUSAL_NO_SUCCESS, tools_used⟩
        else
          ⟨content.getD "", tools_used⟩

/-- `_execute_preflight_tools`: run every zero-required-argument chain tool
with empty arguments before the first LLM turn. -/
def preflightResults (exec : String → String → String) (names : List String) :
    List (String × String) :=
  names.map fun n => (n, exec n "\x7b\x7d")

/-- The per-turn toolset: skill-enforced tools when `requires_tool` and
`allowed_tools` are set, otherwise keyword selection. -/
def relevantToolsOf (tools : List ToolDef) (skillIndex : List Skill)
    (message : String) : List ToolDef :=
  let enforcement := resolve_skill_enforcement tools (skillMatch skillIndex message)
  if enforcement.requires_tool && !enforcement.allowed_tools.isEmpty then
    getToolsByName tools enforcement.allowed_tools
  else selectRelevantTools tools message

/-- Shallow embedding of `PolarisRouter._route_ollama` — the behaviour of
`route` on the default (ollama) backend. -/
def route_ollama (tools : List ToolDef) (skillIndex : List Skill)
    (message : String) (llm : Nat → LLMOutcome)
    (exec : String → String → String) (max_iterations : Nat) : RouteResult :=
  let enforcement := resolve_skill_enforcement tools (skillMatch skillIndex message)
  if enforcement.requires_tool && (relevantToolsOf tools skillIndex message).isEmpty then
    ⟨REFUSAL_NO_SKILL_TOOLS, []⟩
  else
    let pre := preflightResults exec enforcement.preflight_tools
    let tools_used := pre.map (·.1)
    let successful := (pre.filter fun r => !looksLikeToolError r.2).map (·.1)
    routeLoop exec enforcement.requires_tool llm 0 max_iterations
      tools_used successful none

/-- The tool-call list of an LLM outcome (empty for errors). -/
def callsOf : LLMOutcome → List ToolCall
  | .success _ _ tcs => tcs
  | _ => []

/-- The tool names requested by an LLM outcome. -/
def toolCallNames (o : LLMOutcome) : List String :=
  (callsOf o).map (·.name)

/-- A successful completion that enters the tool-call branch. -/
def isToolCallResponse : LLMOutcome → Bool
  | .success fr _ tcs => isToolCallTurn fr tcs
  | _ => false

/-- A successful completion that is a final (non-tool-call) answer. -/
def isFinalResponse : LLMOutcome → Bool
  | .success fr _ tcs => !isToolCallTurn fr tcs
  | _ => false

/-! ## Supporting lemmas -/

theorem isPrefixOf_append_of_isPrefixOf {p l : List Char} (t : List Char)
    (h : p.isPrefixOf l = true) : p.isPrefixOf (l ++ t) = true := by
  induction p generalizing l with
  | nil => cases l ++ t <;> rfl
  | cons a as ih =>
    cases l with
    | nil => simp [List.isPrefixOf] at h
    | cons b bs =>
      simp only [List.isPrefixOf, Bool.and_eq_true] at h ⊢
      exact ⟨h.1, ih h.2⟩

/-! ## C2 — approval gate case analysis -/

/-- C2: `execute_with_approval` runs AUTO tools immediately with no
transport message and returns their result approved; denies
CONFIRM/CRITICAL tools without a transport (approved=false, result=none)
without invoking the execute function; treats tool names absent from the
risk table as CONFIRM; and always reports the tool's risk tier as
`approval_level`. -/
theorem approval_gate_case_analysis {α β : Type} (tool_name : String)
    (tool_args : β) (execute_fn : β → α) (hasBot hasChatId : Bool)
    (decision : Option Bool) :
    (riskFor tool_name = RiskLevel.AUTO →
      execute_with_approval tool_name tool_args execute_fn hasBot hasChatId decision =
        ⟨true, some (execute_fn tool_args), "AUTO", 0, true⟩)
    ∧ (riskFor tool_name ≠ RiskLevel.AUTO → (hasBot = false ∨ hasChatId = false) →
      execute_with_approval tool_name tool_args execute_fn hasBot hasChatId decision =
        ⟨false, none, (riskFor tool_name).value, 0, false⟩)
    ∧ (TOOL_RISK_MAP.lookup tool_name = none → riskFor tool_name = RiskLevel.CONFIRM)
    ∧ (execute_with_approval tool_name tool_args execute_fn hasBot hasChatId
        decision).approval_level = (riskFor tool_name).value := by
  refine ⟨fun h => ?_, fun h hb => ?_, fun h => ?_, ?_⟩
  · simp [execute_with_approval, h, RiskLevel.value]
  · have hb' : (!hasBot || !hasChatId) = true := by
      rcases hb with hb | hb <;> simp [hb]
    simp [execute_with_approval, h, hb']
  · simp [riskFor, h]
  · unfold execute_with_approval
    by_cases h : riskFor tool_name = RiskLevel.AUTO
    · simp [h]
    · simp only [if_neg h]
      by_cases hb : (!hasBot || !hasChatId) = true
      · simp [hb]
      · simp only [Bool.not_eq_true] at hb
        by_cases hd : decision.getD false = true <;> simp [hb, hd]

/-- Witness for `approval_gate_case_analysis`: the AUTO tool
`arxiv_search` executes immediately, and the unregistered `mystery_tool`
defaults to CONFIRM and is denied without a transport. -/
theorem approval_gate_case_analysis_witness :
    (riskFor "arxiv_search" = RiskLevel.AUTO ∧
      execute_with_approval "arxiv_search" 7 (fun a : Nat => a + 1) false false none =
        ⟨true, some 8, "AUTO", 0, true⟩)
    ∧ (TOOL_RISK_MAP.lookup "mystery_tool" = none ∧
      riskFor "mystery_tool" = RiskLevel.CONFIRM ∧
      execute_with_approval "mystery_tool" 7 (fun a : Nat => a + 1) false true
        (some true) = ⟨false, none, "CONFIRM", 0, false⟩) := by
  have h1 : riskFor "arxiv_search" = RiskLevel.AUTO := by decide
  have h2 : riskFor "mystery_tool" = RiskLevel.CONFIRM := by decide
  have hm : execute_with_approval "mystery_tool" 7 (fun a : Nat => a + 1) false true
      (some true) = ⟨false, none, (riskFor "mystery_tool").value, 0, false⟩ :=
    (approval_gate_case_analysis "mystery_tool" 7 (fun a => a + 1) false true
      (some true)).2.1 (by simp [h2]) (Or.inl rfl)
  refine ⟨⟨h1, (approval_gate_case_analysis "arxiv_search" 7 (fun a => a + 1)
    false false none).1 h1⟩, by decide, h2, ?_⟩
  rw [hm, h2]
  rfl

/-! ## C8 — embedder byte round-trip -/

/-- C8: packing a float32 vector (given by the 32-bit patterns of its
components) to bytes and unpacking it returns the original vector exactly —
in particular componentwise within 1e-5. -/
theorem embedder_bytes_roundtrip (v : List Nat) (h : ∀ x ∈ v, x < 2 ^ 32) :
    from_bytes (to_bytes v) = v := by
  induction v with
  | nil => rfl
  | cons x xs ih =>
    have hx : x < 2 ^ 32 := h x (List.mem_cons_self x xs)
    have hxs : from_bytes (to_bytes xs) = xs :=
      ih fun y hy => h y (List.mem_cons_of_mem x hy)
    show from_bytes (word32ToBytes x ++ to_bytes xs) = x :: xs
    simp only [word32ToBytes, List.cons_append, List.nil_append, from_bytes, hxs]
    congr 1
    omega

/-- Witness for `embedder_bytes_roundtrip` on a concrete vector (containing
the patterns of 0.0, the denormal 1, and the largest 32-bit pattern). -/
theorem embedder_bytes_roundtrip_witness :
    (∀ x ∈ [0, 1, 4294967295], x < 2 ^ 32) ∧
      from_bytes (to_bytes [0, 1, 4294967295]) = [0, 1, 4294967295] :=
  ⟨by decide, embedder_bytes_roundtrip [0, 1, 4294967295] (by decide)⟩

/-! ## C7 — tool registry error rendering -/

/-- Handler table with a single raising handler, for the counterexample. -/
def boomHandlers : List (String × Handler) :=
  [("demo_tool", fun _ => .error "boom")]

/-- C7 counterexample: a raising handler propagates out of the registry's
`execute_tool`; the router's `_execute_tool` wrapper catches it but renders
the plain string `Tool 'demo_tool' failed: boom`, which is not a JSON error
string. -/
theorem tool_error_render_counterexample :
    execute_tool boomHandlers "demo_tool" "\x7b\x7d" = .error "boom" ∧
    router_execute_tool boomHandlers "demo_tool" "\x7b\x7d" =
      "Tool 'demo_tool' failed: boom" ∧
    isJsonErrorObject "Tool 'demo_tool' failed: boom" = false :=
  ⟨rfl, rfl, by decide⟩

/-- C7 amended: an unknown tool name yields the JSON error string from the
registry; a handler exception propagates out of the registry's
`execute_tool` and is caught one level up by `PolarisRouter._execute_tool`,
which renders it as the plain (non-JSON) string `Tool '<name>' failed: <e>`
instead of letting it escape; successful handler output passes through. -/
theorem tool_registry_error_handling (handlers : List (String × Handler))
    (name args : String) :
    (handlers.lookup name = none →
      execute_tool handlers name args = .ok (unknownToolError name) ∧
      router_execute_tool handlers name args = unknownToolError name ∧
      isJsonErrorObject (unknownToolError name) = true)
    ∧ (∀ h e, handlers.lookup name = some h → h args = .error e →
      execute_tool handlers name args = .error e ∧
      router_execute_tool handlers name args = "Tool '" ++ name ++ "' failed: " ++ e)
    ∧ (∀ h r, handlers.lookup name = some h → h args = .ok r →
      router_execute_tool handlers name args = r) := by
  refine ⟨fun hn => ⟨?_, ?_, ?_⟩, fun h e hl he => ⟨?_, ?_⟩, fun h r hl hr => ?_⟩
  · simp [execute_tool, hn]
  · simp [router_execute_tool, execute_tool, hn]
  · show (("\x7b\"error\"").toList).isPrefixOf (unknownToolError name).toList = true
    have : (unknownToolError name).toList =
        ("\x7b\"error\": \"Unknown tool: ").toList ++ (name ++ "\"\x7d").toList := by
      simp [unknownToolError, String.toList, String.data_append, String.append_assoc]
    rw [this]
    exact isPrefixOf_append_of_isPrefixOf _ (by decide)
  · simp [execute_tool, hl, he]
  · simp [router_execute_tool, execute_tool, hl, he]
  · simp [router_execute_tool, execute_tool, hl, hr]

/-- Witness for `tool_registry_error_handling`: unknown name, raising
handler and successful handler, all on the concrete `boomHandlers` table. -/
theorem tool_registry_error_handling_witness :
    (boomHandlers.lookup "nope" = none ∧
      execute_tool boomHandlers "nope" "" = .ok (unknownToolError "nope") ∧
      isJsonErrorObject (unknownToolError "nope") = true) ∧
    ((fun _ => Except.error "boom" : Handler) "" = .error "boom" ∧
      router_execute_tool boomHandlers "demo_tool" "" = "Tool '" ++ "demo_tool" ++ "' failed: " ++ "boom") := by
  have hn : boomHandlers.lookup "nope" = none := rfl
  have h1 := (tool_registry_error_handling boomHandlers "nope" "").1 hn
  have h2 := (tool_registry_error_handling boomHandlers "demo_tool" "").2.1
    (fun _ => Except.error "boom") "boom" rfl rfl
  exact ⟨⟨hn, h1.1, h1.2.2⟩, rfl, h2.2⟩

/-! ## C3 — ensemble voting -/

theorem mem_firstSeen {a : String} {l : List String} :
    a ∈ firstSeen l ↔ a ∈ l := by
  induction l with
  | nil => simp [firstSeen]
  | cons x xs ih =>
    simp only [firstSeen, List.mem_cons, List.mem_filter]
    constructor
    · rintro (rfl | ⟨h, _⟩)
      · exact Or.inl rfl
      · exact Or.inr (ih.mp h)
    · rintro (rfl | h)
      · exact Or.inl rfl
      · by_cases hx : a = x
        · exact Or.inl hx
        · exact Or.inr ⟨ih.mpr h, by simp [hx]⟩

theorem countOf_eq_zero_of_not_mem {votes : List String} {l : String}
    (h : l ∉ votes) : countOf votes l = 0 := by
  simp only [countOf, List.length_eq_zero, List.filter_eq_nil_iff]
  intro v hv
  simp only [decide_eq_true_eq]
  rintro rfl
  exact h hv

theorem foldl_voteStep_spec (votes ks : List String) (b : String × Nat)
    (hb : b.2 = countOf votes b.1) :
    (ks.foldl (voteStep votes) b).2 =
        countOf votes (ks.foldl (voteStep votes) b).1
    ∧ b.2 ≤ (ks.foldl (voteStep votes) b).2
    ∧ (∀ l ∈ ks, countOf votes l ≤ (ks.foldl (voteStep votes) b).2)
    ∧ ((ks.foldl (voteStep votes) b).1 = b.1 ∨ (ks.foldl (voteStep votes) b).1 ∈ ks) := by
  induction ks generalizing b with
  | nil => exact ⟨hb, le_refl _, by simp, Or.inl rfl⟩
  | cons k ks ih =>
    simp only [List.foldl_cons]
    by_cases h : countOf votes k > b.2
    · have step : voteStep votes b k = (k, countOf votes k) := by
        simp [voteStep, h]
      rw [step]
      obtain ⟨h1, h2, h3, h4⟩ := ih (k, countOf votes k) rfl
      refine ⟨h1, le_trans (le_of_lt h) h2, ?_, ?_⟩
      · intro l hl
        rcases List.mem_cons.mp hl with rfl | hl
        · exact h2
        · exact h3 l hl
      · rcases h4 with h4 | h4
        · exact Or.inr (by rw [h4]; exact List.mem_cons_self k ks)
        · exact Or.inr (List.mem_cons_of_mem k h4)
    · have step : voteStep votes b k = b := by
        simp [voteStep, h]
      rw [step]
      obtain ⟨h1, h2, h3, h4⟩ := ih b hb
      refine ⟨h1, h2, ?_, ?_⟩
      · intro l hl
        rcases List.mem_cons.mp hl with rfl | hl
        · exact le_trans (by omega) h2
        · exact h3 l hl
      · rcases h4 with h4 | h4
        · exact Or.inl h4
        · exact Or.inr (List.mem_cons_of_mem k h4)

theorem bestLabel_spec (votes : List String) (hne : votes ≠ []) :
    (bestLabel votes).1 ∈ votes
    ∧ (bestLabel votes).2 = countOf votes (bestLabel votes).1
    ∧ ∀ l, countOf votes l ≤ (bestLabel votes).2 := by
  cases votes with
  | nil => exact absurd rfl hne
  | cons x xs =>
    have hfs : firstSeen (x :: xs) = x :: (firstSeen xs).filter (fun y => y ≠ x) := rfl
    have hbl : bestLabel (x :: xs) =
        ((firstSeen xs).filter (fun y => y ≠ x)).foldl (voteStep (x :: xs))
          (x, countOf (x :: xs) x) := by
      simp [bestLabel, hfs]
    obtain ⟨h1, h2, h3, h4⟩ :=
      foldl_voteStep_spec (x :: xs) ((firstSeen xs).filter (fun y => y ≠ x))
        (x, countOf (x :: xs) x) rfl
    rw [hbl]
    refine ⟨?_, h1, ?_⟩
    · rcases h4 with h4 | h4
      · rw [h4]; exact List.mem_cons_self x xs
      · have := (List.mem_filter.mp h4).1
        exact List.mem_cons_of_mem x (mem_firstSeen.mp this)
    · intro l
      by_cases hl : l ∈ (x :: xs)
      · rcases (mem_firstSeen (l := x :: xs)).mpr hl with hfs'
        rw [hfs] at hfs'
        rcases List.mem_cons.mp hfs' with rfl | hfs'
        · exact h2
        · exact h3 l hfs'
      · rw [countOf_eq_zero_of_not_mem hl]
        exact Nat.zero_le _

theorem firstSeen_replicate {m : Nat} {l : String} (hm : m ≠ 0) :
    firstSeen (List.replicate m l) = [l] := by
  induction m with
  | zero => exact absurd rfl hm
  | succ m ih =>
    rw [List.replicate_succ]
    cases m with
    | zero => rfl
    | succ m' =>
      show l :: (firstSeen (List.replicate (m' + 1) l)).filter (fun y => y ≠ l) = [l]
      rw [ih (by omega)]
      simp

theorem countOf_replicate (m : Nat) (l : String) :
    countOf (List.replicate m l) l = m := by
  induction m with
  | zero => rfl
  | succ m ih =>
    have hstep : countOf (List.replicate (m + 1) l) l =
        countOf (List.replicate m l) l + 1 := by
      rw [List.replicate_succ]
      simp only [countOf]
      rw [List.filter_cons_of_pos (by simp)]
      rfl
    rw [hstep, ih]

theorem bestLabel_replicate {m : Nat} {l : String} (hm : m ≠ 0) :
    bestLabel (List.replicate m l) = (l, m) := by
  simp [bestLabel, firstSeen_replicate hm, countOf_replicate]

/-- C3: `vote_classify` keeps exactly the ACTION/FYI results as successes;
below quorum it returns `(UNCERTAIN, 0.0, successes)`; at quorum it returns
the most-frequent label with confidence `count/successes`, demoted to
UNCERTAIN below the confidence threshold; and all-identical successful
votes meeting quorum yield that label with confidence exactly 1. The
repository ships no `RLM_CONFIG.yaml`, so the spec-mandated configuration
facts (`fallback_category = UNCERTAIN`, a quorum of at least one, a
threshold at most 1) are hypotheses. -/
theorem vote_classify_spec (cfg : RLMConfig) (results : List String)
    (hfb : cfg.fallback_category = "UNCERTAIN")
    (hq : 1 ≤ cfg.min_quorum)
    (ht : cfg.confidence_threshold ≤ 1)
    (hn : results.length = cfg.n_inferences) :
    (successfulVotes results = results.filter validVote)
    ∧ ((successfulVotes results).length < cfg.min_quorum →
        vote_classify cfg results = ("UNCERTAIN", 0, successfulVotes results))
    ∧ (cfg.min_quorum ≤ (successfulVotes results).length →
        ∃ label, label ∈ successfulVotes results ∧
          (∀ l, countOf (successfulVotes results) l ≤
            countOf (successfulVotes results) label) ∧
          vote_classify cfg results =
            ((if (countOf (successfulVotes results) label : ℚ) /
                  ((successfulVotes results).length : ℚ) < cfg.confidence_threshold
              then "UNCERTAIN" else label),
             (countOf (successfulVotes results) label : ℚ) /
               ((successfulVotes results).length : ℚ),
             successfulVotes results))
    ∧ (∀ l m, validVote l = true → cfg.min_quorum ≤ m →
        successfulVotes results = List.replicate m l →
        vote_classify cfg results = (l, 1, successfulVotes results)) := by
  refine ⟨rfl, fun h => ?_, fun h => ?_, fun l m _ hm hrep => ?_⟩
  · simp [vote_classify, if_pos h, hfb]
  · have hne : successfulVotes results ≠ [] := by
      intro hnil
      rw [hnil] at h
      simp at h
      omega
    obtain ⟨hmem, hcnt, hmax⟩ := bestLabel_spec (successfulVotes results) hne
    refine ⟨(bestLabel (successfulVotes results)).1, hmem,
      fun l => by rw [← hcnt]; exact hmax l, ?_⟩
    simp only [vote_classify, if_neg (Nat.not_lt.mpr h), hfb]
    rw [hcnt]
    split <;> rfl
  · have hm0 : m ≠ 0 := by omega
    have hlen : (successfulVotes results).length = m := by
      rw [hrep, List.length_replicate]
    have hconf : ((bestLabel (successfulVotes results)).2 : ℚ) /
        ((successfulVotes results).length : ℚ) = 1 := by
      rw [hrep, bestLabel_replicate hm0, List.length_replicate]
      exact div_self (by exact_mod_cast hm0)
    simp only [vote_classify, if_neg (Nat.not_lt.mpr (hlen ▸ hm))]
    rw [hconf]
    rw [if_neg (not_lt.mpr ht)]
    rw [hrep, bestLabel_replicate hm0]

/-- Witness for `vote_classify_spec`: five inferences with four ACTION
votes and one failure, quorum 3, threshold 0.7 — unanimous successes give
`(ACTION, 1.0)`. -/
theorem vote_classify_spec_witness :
    ((⟨5, 3, 7/10, "UNCERTAIN"⟩ : RLMConfig).fallback_category = "UNCERTAIN"
      ∧ 1 ≤ (⟨5, 3, 7/10, "UNCERTAIN"⟩ : RLMConfig).min_quorum
      ∧ (⟨5, 3, 7/10, "UNCERTAIN"⟩ : RLMConfig).confidence_threshold ≤ 1
      ∧ validVote "ACTION" = true
      ∧ successfulVotes ["ACTION", "ACTION", "ACTION", "ERROR: timeout", "ACTION"] =
          List.replicate 4 "ACTION")
    ∧ vote_classify ⟨5, 3, 7/10, "UNCERTAIN"⟩
        ["ACTION", "ACTION", "ACTION", "ERROR: timeout", "ACTION"] =
        ("ACTION", 1, successfulVotes ["ACTION", "ACTION", "ACTION", "ERROR: timeout", "ACTION"]) := by
  refine ⟨⟨rfl, by norm_num, by norm_num, rfl, by decide⟩, ?_⟩
  exact (vote_classify_spec ⟨5, 3, 7/10, "UNCERTAIN"⟩
    ["ACTION", "ACTION", "ACTION", "ERROR: timeout", "ACTION"] rfl (by norm_num)
    (by norm_num) rfl).2.2.2 "ACTION" 4 rfl (by norm_num) (by decide)

/-! ## C5 — skill enforcement policy -/

theorem chainStep_allowed (tools : List ToolDef) (st : Enforcement) (name : String) :
    (chainStep tools st name).allowed_tools = addUnique st.allowed_tools name := by
  simp only [chainStep]
  cases knownToolLookup tools name with
  | none => rfl
  | some td => by_cases h : td.required.isEmpty <;> simp [h]

theorem chainStep_chain (tools : List ToolDef) (st : Enforcement) (name : String) :
    (chainStep tools st name).chain_tools = addUnique st.chain_tools name := by
  simp only [chainStep]
  cases knownToolLookup tools name with
  | none => rfl
  | some td => by_cases h : td.required.isEmpty <;> simp [h]

theorem chainStep_requires (tools : List ToolDef) (st : Enforcement) (name : String) :
    (chainStep tools st name).requires_tool = st.requires_tool := by
  simp only [chainStep]
  cases knownToolLookup tools name with
  | none => rfl
  | some td => by_cases h : td.required.isEmpty <;> simp [h]

theorem chainStep_strict (tools : List ToolDef) (st : Enforcement) (name : String) :
    (chainStep tools st name).strict_mode = st.strict_mode := by
  simp only [chainStep]
  cases knownToolLookup tools name with
  | none => rfl
  | some td => by_cases h : td.required.isEmpty <;> simp [h]

theorem foldl_chainStep_allowed (tools : List ToolDef) (names : List String)
    (st : Enforcement) :
    (names.foldl (chainStep tools) st).allowed_tools =
      names.foldl addUnique st.allowed_tools := by
  induction names generalizing st with
  | nil => rfl
  | cons n ns ih =>
    simp only [List.foldl_cons]
    rw [ih, chainStep_allowed]

theorem foldl_chainStep_chain (tools : List ToolDef) (names : List String)
    (st : Enforcement) :
    (names.foldl (chainStep tools) st).chain_tools =
      names.foldl addUnique st.chain_tools := by
  induction names generalizing st with
  | nil => rfl
  | cons n ns ih =>
    simp only [List.foldl_cons]
    rw [ih, chainStep_chain]

theorem foldl_chainStep_requires (tools : List ToolDef) (names : List String)
    (st : Enforcement) :
    (names.foldl (chainStep tools) st).requires_tool = st.requires_tool := by
  induction names generalizing st with
  | nil => rfl
  | cons n ns ih =>
    simp only [List.foldl_cons]
    rw [ih, chainStep_requires]

theorem foldl_chainStep_strict (tools : List ToolDef) (names : List String)
    (st : Enforcement) :
    (names.foldl (chainStep tools) st).strict_mode = st.strict_mode := by
  induction names generalizing st with
  | nil => rfl
  | cons n ns ih =>
    simp only [List.foldl_cons]
    rw [ih, chainStep_strict]

theorem enfStep_requires (tools : List ToolDef) (st : Enforcement) (sk : Skill) :
    (enfStep tools st sk).requires_tool = (st.requires_tool || sk.requires_tool) := by
  unfold enfStep
  by_cases h : sk.requires_tool <;> simp [h, foldl_chainStep_requires]

theorem enfStep_strict (tools : List ToolDef) (st : Enforcement) (sk : Skill) :
    (enfStep tools st sk).strict_mode =
      (st.strict_mode || (sk.requires_tool && sk.strict_mode.getD true)) := by
  unfold enfStep
  by_cases h : sk.requires_tool <;> simp [h, foldl_chainStep_strict]

theorem enfStep_allowed (tools : List ToolDef) (st : Enforcement) (sk : Skill) :
    (enfStep tools st sk).allowed_tools =
      if sk.requires_tool then (chosenTools sk).foldl addUnique st.allowed_tools
      else st.allowed_tools := by
  unfold enfStep
  by_cases h : sk.requires_tool <;> simp [h, foldl_chainStep_allowed]

theorem enfStep_chain (tools : List ToolDef) (st : Enforcement) (sk : Skill) :
    (enfStep tools st sk).chain_tools =
      if sk.requires_tool then (chosenTools sk).foldl addUnique st.chain_tools
      else st.chain_tools := by
  unfold enfStep
  by_cases h : sk.requires_tool <;> simp [h, foldl_chainStep_chain]

theorem resolve_requires_aux (tools : List ToolDef) (matched : List Skill)
    (st : Enforcement) :
    (matched.foldl (enfStep tools) st).requires_tool =
      (st.requires_tool || matched.any (·.requires_tool)) := by
  induction matched generalizing st with
  | nil => simp
  | cons sk sks ih =>
    simp only [List.foldl_cons, List.any_cons]
    rw [ih, enfStep_requires, Bool.or_assoc]

theorem resolve_strict_aux (tools : List ToolDef) (matched : List Skill)
    (st : Enforcement) :
    (matched.foldl (enfStep tools) st).strict_mode =
      (st.strict_mode ||
        (matched.filter (·.requires_tool)).any (fun s => s.strict_mode.getD true)) := by
  induction matched generalizing st with
  | nil => simp
  | cons sk sks ih =>
    simp only [List.foldl_cons]
    rw [ih, enfStep_strict]
    by_cases h : sk.requires_tool = true <;>
      simp [h, List.filter_cons, Bool.or_assoc]

theorem resolve_allowed_aux (tools : List ToolDef) (matched : List Skill)
    (st : Enforcement) :
    (matched.foldl (enfStep tools) st).allowed_tools =
      ((matched.filter (·.requires_tool)).flatMap chosenTools).foldl addUnique
        st.allowed_tools := by
  induction matched generalizing st with
  | nil => rfl
  | cons sk sks ih =>
    simp only [List.foldl_cons]
    rw [ih, enfStep_allowed]
    by_cases h : sk.requires_tool = true <;>
      simp [h, List.filter_cons, List.flatMap_cons, List.foldl_append]

theorem resolve_chain_aux (tools : List ToolDef) (matched : List Skill)
    (st : Enforcement) :
    (matched.foldl (enfStep tools) st).chain_tools =
      ((matched.filter (·.requires_tool)).flatMap chosenTools).foldl addUnique
        st.chain_tools := by
  induction matched generalizing st with
  | nil => rfl
  | cons sk sks ih =>
    simp only [List.foldl_cons]
    rw [ih, enfStep_chain]
    by_cases h : sk.requires_tool = true <;>
      simp [h, List.filter_cons, List.flatMap_cons, List.foldl_append]

/-- The skill used in the C5 counterexample: it does not require a tool but
carries an explicit `strict_mode: true` flag and a non-empty tool chain. -/
def laxSkill : Skill :=
  ⟨"lax", [], false, some true, ["search_arxiv"], []⟩

/-- C5 counterexample: for the single matched skill `laxSkill`, the claim's
OR-of-flags reading yields `strict_mode = true` and
`allowed_tools = ["search_arxiv"]`, but `_resolve_skill_enforcement` skips
every skill whose `requires_tool` is false and returns the all-empty
policy. -/
theorem resolve_skill_enforcement_counterexample :
    claimRequiresTool [laxSkill] = false ∧
    claimStrictMode [laxSkill] = true ∧
    claimAllowedTools [laxSkill] = ["search_arxiv"] ∧
    resolve_skill_enforcement [] [laxSkill] = ⟨false, false, [], [], []⟩ := by
  refine ⟨rfl, rfl, by decide, rfl⟩

/-- C5 amended: `requires_tool` is the OR of the matched skills'
`requires_tool` flags, but only skills with `requires_tool = true`
contribute to the rest of the policy: `strict_mode` is the OR over those
skills of their `strict_mode` (defaulting to true when the key is absent),
and `allowed_tools` = `chain_tools` is the first-seen-ordered union over
those skills of their `tool_chain` (else `tools_required`). -/
theorem resolve_skill_enforcement_spec (tools : List ToolDef) (matched : List Skill) :
    (resolve_skill_enforcement tools matched).requires_tool =
        claimRequiresTool matched
    ∧ (resolve_skill_enforcement tools matched).strict_mode =
        (matched.filter (·.requires_tool)).any (fun s => s.strict_mode.getD true)
    ∧ (resolve_skill_enforcement tools matched).allowed_tools =
        claimAllowedTools (matched.filter (·.requires_tool))
    ∧ (resolve_skill_enforcement tools matched).chain_tools =
        (resolve_skill_enforcement tools matched).allowed_tools := by
  refine ⟨?_, ?_, ?_, ?_⟩
  · rw [resolve_skill_enforcement, resolve_requires_aux]
    rfl
  · rw [resolve_skill_enforcement, resolve_strict_aux]
    rfl
  · rw [resolve_skill_enforcement, resolve_allowed_aux]
    rfl
  · rw [resolve_skill_enforcement, resolve_allowed_aux, resolve_chain_aux]

/-! ## C6 — semantic search ranking and tie-breaking -/

theorem scoreLe_trans (a b c : Hit) : scoreLe a b → scoreLe b c → scoreLe a c := by
  simp only [scoreLe, decide_eq_true_eq]
  exact fun hab hbc => le_trans hbc hab

theorem scoreLe_total (a b : Hit) : scoreLe a b || scoreLe b a := by
  simp only [scoreLe, Bool.or_eq_true, decide_eq_true_eq]
  exact le_total b.score a.score

/-- Constant similarity oracle used in the C6 counterexample. -/
def constSim : List ℚ → List ℚ → ℚ := fun _ _ => 1

/-- C6 counterexample: two embedded conversation rows with equal scores.
Python's stable sort keeps the table-scan order, so the older row (id 1) is
ranked first; the claim's descending-id tie-break would put id 2 first. -/
theorem semantic_search_tie_counterexample :
    semantic_search constSim [] [⟨1, "a", some []⟩, ⟨2, "b", some []⟩] [] 2 =
      [⟨"conversation", 1, "a", 1⟩, ⟨"conversation", 2, "b", 1⟩] ∧
    (⟨"conversation", 1, "a", 1⟩ : Hit).score =
      (⟨"conversation", 2, "b", 1⟩ : Hit).score := by
  constructor
  · show ((semanticCandidates constSim [] [⟨1, "a", some []⟩, ⟨2, "b", some []⟩]
      []).mergeSort scoreLe).take 2 = _
    have hc : semanticCandidates constSim [] [⟨1, "a", some []⟩, ⟨2, "b", some []⟩] [] =
        [⟨"conversation", 1, "a", 1⟩, ⟨"conversation", 2, "b", 1⟩] := rfl
    rw [hc, @List.mergeSort_of_sorted Hit scoreLe
      [⟨"conversation", 1, "a", 1⟩, ⟨"conversation", 2, "b", 1⟩] (by decide)]
    rfl
  · rfl

/-- C6 amended: the semantic path ranks all embedded conversation and
knowledge rows by descending similarity score and returns the top-k, but
score ties keep the table-scan order (conversation rows before knowledge
rows, each in ascending id order) — the earlier-scanned, hence older, row
wins, not the more recent one. -/
theorem semantic_search_spec (sim : List ℚ → List ℚ → ℚ) (queryVec : List ℚ)
    (convs : List ConvRow) (knows : List KnowRow) (top_k : Nat) :
    (semantic_search sim queryVec convs knows top_k).length =
        min top_k (semanticCandidates sim queryVec convs knows).length
    ∧ (semantic_search sim queryVec convs knows top_k).Pairwise
        (fun a b => b.score ≤ a.score)
    ∧ ((semanticCandidates sim queryVec convs knows).Pairwise
          (fun a b => a.score = b.score) →
        semantic_search sim queryVec convs knows top_k =
          (semanticCandidates sim queryVec convs knows).take top_k) := by
  refine ⟨?_, ?_, fun hall => ?_⟩
  · simp [semantic_search]
  · have hs : ((semanticCandidates sim queryVec convs knows).mergeSort
        scoreLe).Pairwise (fun a b => scoreLe a b = true) :=
      List.sorted_mergeSort scoreLe_trans scoreLe_total
        (semanticCandidates sim queryVec convs knows)
    have ht := List.Pairwise.sublist (List.take_sublist top_k _) hs
    exact ht.imp fun h => by
      simpa [scoreLe] using h
  · show ((semanticCandidates sim queryVec convs knows).mergeSort scoreLe).take
      top_k = _
    rw [List.mergeSort_of_sorted
      (hall.imp fun h => by simp [scoreLe, le_of_eq h.symm])]

/-- Witness for `semantic_search_spec` on the counterexample instance: the
all-ties hypothesis holds and the search returns the first two candidates
in scan order. -/
theorem semantic_search_spec_witness :
    (semanticCandidates constSim [] [⟨1, "a", some []⟩, ⟨2, "b", some []⟩]
        []).Pairwise (fun a b => a.score = b.score)
    ∧ semantic_search constSim [] [⟨1, "a", some []⟩, ⟨2, "b", some []⟩] [] 2 =
        (semanticCandidates constSim [] [⟨1, "a", some []⟩, ⟨2, "b", some []⟩]
          []).take 2 := by
  have hall : (semanticCandidates constSim [] [⟨1, "a", some []⟩,
      ⟨2, "b", some []⟩] []).Pairwise (fun a b => a.score = b.score) := by
    decide
  exact ⟨hall, (semantic_search_spec constSim []
    [⟨1, "a", some []⟩, ⟨2, "b", some []⟩] [] 2).2.2 hall⟩

/-! ## C10 — keyword search fallback ordering -/

theorem convKeywordHits_length (q : String) (convs : List ConvRow) (k : Nat) :
    (convKeywordHits q convs k).length =
      min k (convs.filter fun r => likeMatch r.content q).length := by
  simp [convKeywordHits]

theorem knowKeywordHits_length_le (q : String) (knows : List KnowRow) (r : Nat) :
    (knowKeywordHits q knows r).length ≤ r := by
  simp only [knowKeywordHits, List.length_map, List.length_take]
  exact Nat.min_le_left _ _

/-- C10: the keyword fallback returns at most `top_k` hits; the result is
the conversation hits (all tagged `conversation`, newest first) followed by
knowledge hits (all tagged `knowledge`) that fill only the remaining slots;
and when `top_k` or more conversation rows match, no knowledge hit is
returned at all. -/
theorem keyword_search_spec (q : String) (convs : List ConvRow)
    (knows : List KnowRow) (top_k : Nat) :
    (keyword_search q convs knows top_k).length ≤ top_k
    ∧ (∃ kn, keyword_search q convs knows top_k =
          convKeywordHits q convs top_k ++ kn
        ∧ (∀ h ∈ kn, h.source_table = "knowledge")
        ∧ kn.length ≤ top_k - (convKeywordHits q convs top_k).length)
    ∧ (∀ h ∈ convKeywordHits q convs top_k, h.source_table = "conversation")
    ∧ ((convKeywordHits q convs top_k).map (·.id)).Pairwise (fun a b => b ≤ a)
    ∧ (top_k ≤ (convs.filter fun r => likeMatch r.content q).length →
        keyword_search q convs knows top_k = convKeywordHits q convs top_k) := by
  have hc := convKeywordHits_length q convs top_k
  have hkle := knowKeywordHits_length_le q knows
    (top_k - (convKeywordHits q convs top_k).length)
  refine ⟨?_, ?_, ?_, ?_, fun hsat => ?_⟩
  · simp only [keyword_search]
    split
    · rw [List.length_append]; omega
    · omega
  · simp only [keyword_search]
    split
    · refine ⟨knowKeywordHits q knows
        (top_k - (convKeywordHits q convs top_k).length), rfl, ?_, hkle⟩
      intro h hm
      obtain ⟨r, _, rfl⟩ := List.mem_map.mp hm
      rfl
    · exact ⟨[], (List.append_nil _).symm, by simp, by simp⟩
  · intro h hm
    obtain ⟨r, _, rfl⟩ := List.mem_map.mp hm
    rfl
  · unfold convKeywordHits
    rw [List.map_map, List.pairwise_map]
    have hs : (((convs.filter fun r => likeMatch r.content q).mergeSort
        (rowIdDesc ConvRow.id))).Pairwise
          (fun a b => rowIdDesc ConvRow.id a b = true) :=
      List.sorted_mergeSort
        (fun a b c hab hbc => by
          simp only [rowIdDesc, decide_eq_true_eq] at hab hbc ⊢
          omega)
        (fun a b => by
          simp only [rowIdDesc, Bool.or_eq_true, decide_eq_true_eq]
          omega)
        _
    exact (List.Pairwise.sublist (List.take_sublist _ _) hs).imp fun h => by
      simpa [rowIdDesc] using h
  · simp only [keyword_search]
    rw [if_neg (by omega)]

/-- Witness for `keyword_search_spec`: two matching conversation rows
saturate `top_k = 2`, so the matching knowledge row is starved out. -/
theorem keyword_search_spec_witness :
    2 ≤ (([⟨1, "mos2 bandgap", none⟩, ⟨2, "mos2 paper", none⟩,
          ⟨3, "hello", none⟩] : List ConvRow).filter
            fun r => likeMatch r.content "MoS2").length
    ∧ keyword_search "MoS2"
        [⟨1, "mos2 bandgap", none⟩, ⟨2, "mos2 paper", none⟩, ⟨3, "hello", none⟩]
        [⟨7, "MoS2", "notes", "research", none⟩] 2 =
      convKeywordHits "MoS2"
        [⟨1, "mos2 bandgap", none⟩, ⟨2, "mos2 paper", none⟩, ⟨3, "hello", none⟩] 2 := by
  have h : 2 ≤ (([⟨1, "mos2 bandgap", none⟩, ⟨2, "mos2 paper", none⟩,
      ⟨3, "hello", none⟩] : List ConvRow).filter
        fun r => likeMatch r.content "MoS2").length := by decide
  exact ⟨h, (keyword_search_spec "MoS2"
    [⟨1, "mos2 bandgap", none⟩, ⟨2, "mos2 paper", none⟩, ⟨3, "hello", none⟩]
    [⟨7, "MoS2", "notes", "research", none⟩] 2).2.2.2.2 h⟩

/-! ## Router loop lemmas (shared by the C1, C4 and C9 theorems) -/

/-- The tool names requested by responses `iter, iter+1, …, iter+k-1`, in
order — the in-loop contribution to `tools_used`. -/
def calledNames (llm : Nat → LLMOutcome) (iter : Nat) : Nat → List String
  | 0 => []
  | k + 1 => toolCallNames (llm iter) ++ calledNames llm (iter + 1) k

theorem routeLoop_refusal_of_errors (exec : String → String → String)
    (llm : Nat → LLMOutcome) (k : Nat) :
    ∀ (iter fuel : Nat) (tu : List String) (prev : Option String),
      k < fuel →
      (∀ j < k, isToolCallResponse (llm (iter + j)) = true) →
      (∀ j < k, ∀ tc ∈ callsOf (llm (iter + j)),
        looksLikeToolError (exec tc.name tc.args) = true) →
      isFinalResponse (llm (iter + k)) = true →
      routeLoop exec true llm iter fuel tu [] prev =
        ⟨REFUSAL_NO_SUCCESS, tu ++ calledNames llm iter k⟩ := by
  induction k with
  | zero =>
    intro iter fuel tu prev hk _ _ hfinal
    obtain ⟨f, rfl⟩ : ∃ f, fuel = f + 1 := ⟨fuel - 1, by omega⟩
    rw [Nat.add_zero] at hfinal
    simp only [routeLoop]
    cases ho : llm iter with
    | authError => rw [ho] at hfinal; simp [isFinalResponse] at hfinal
    | apiError m => rw [ho] at hfinal; simp [isFinalResponse] at hfinal
    | success fr c tcs =>
      rw [ho] at hfinal
      simp only [isFinalResponse, Bool.not_eq_true'] at hfinal
      simp [hfinal, calledNames]
  | succ k ih =>
    intro iter fuel tu prev hk hcalls herr hfinal
    obtain ⟨f, rfl⟩ : ∃ f, fuel = f + 1 := ⟨fuel - 1, by omega⟩
    have hc0 := hcalls 0 (by omega)
    rw [Nat.add_zero] at hc0
    simp only [routeLoop]
    cases ho : llm iter with
    | authError => rw [ho] at hc0; simp [isToolCallResponse] at hc0
    | apiError m => rw [ho] at hc0; simp [isToolCallResponse] at hc0
    | success fr c tcs =>
      rw [ho] at hc0
      simp only [isToolCallResponse] at hc0
      simp only [hc0, eq_self_iff_true, if_true]
      have hfiltered :
          (tcs.filter fun tc => !looksLikeToolError (exec tc.name tc.args)) = [] := by
        apply List.filter_eq_nil_iff.mpr
        intro tc htc
        have h := herr 0 (by omega) tc (by rw [Nat.add_zero, ho]; exact htc)
        simp [h]
      have hrec := ih (iter + 1) f (tu ++ tcs.map (·.name)) c (by omega)
        (fun j hj => by
          have := hcalls (j + 1) (by omega)
          rwa [show iter + (j + 1) = iter + 1 + j by omega] at this)
        (fun j hj tc htc => by
          have htc' : tc ∈ callsOf (llm (iter + (j + 1))) := by
            rwa [show iter + (j + 1) = iter + 1 + j by omega]
          exact herr (j + 1) (by omega) tc htc')
        (by
          have := hfinal
          rwa [show iter + (k + 1) = iter + 1 + k by omega] at this)
      rw [hfiltered]
      simp only [List.map_nil, List.append_nil, List.nil_append]
      rw [hrec]
      simp only [calledNames, toolCallNames]
      rw [ho]
      simp [callsOf, List.append_assoc]

theorem preflight_names (exec : String → String → String) (names : List String) :
    (preflightResults exec names).map (·.1) = names := by
  induction names with
  | nil => rfl
  | cons n ns ih =>
    simp only [preflightResults, List.map_cons] at ih ⊢
    rw [ih]

/-- Shared refusal property of `route_ollama`: when the enforcement policy
requires a tool, the per-turn toolset is non-empty, every preflight result
and every in-loop tool result looks like an error, and response `k` is the
final one, the router returns the refusal string together with the
accumulated `tools_used`. -/
theorem route_refusal_helper (tools : List ToolDef) (skillIndex : List Skill)
    (message : String) (llm : Nat → LLMOutcome)
    (exec : String → String → String) (maxIter k : Nat)
    (hreq : (resolve_skill_enforcement tools
      (skillMatch skillIndex message)).requires_tool = true)
    (havail : (relevantToolsOf tools skillIndex message).isEmpty = false)
    (hk : k < maxIter)
    (hpre : ∀ n ∈ (resolve_skill_enforcement tools
        (skillMatch skillIndex message)).preflight_tools,
      looksLikeToolError (exec n "\x7b\x7d") = true)
    (hcalls : ∀ j < k, isToolCallResponse (llm j) = true)
    (herr : ∀ j < k, ∀ tc ∈ callsOf (llm j),
      looksLikeToolError (exec tc.name tc.args) = true)
    (hfinal : isFinalResponse (llm k) = true) :
    route_ollama tools skillIndex message llm exec maxIter =
      ⟨REFUSAL_NO_SUCCESS,
       (resolve_skill_enforcement tools
         (skillMatch skillIndex message)).preflight_tools ++ calledNames llm 0 k⟩ := by
  simp only [route_ollama, hreq, havail, Bool.true_and, Bool.false_eq_true, if_false]
  have htu : (preflightResults exec (resolve_skill_enforcement tools
      (skillMatch skillIndex message)).preflight_tools).map (·.1) =
      (resolve_skill_enforcement tools (skillMatch skillIndex message)).preflight_tools :=
    preflight_names exec _
  have hsucc : ((preflightResults exec (resolve_skill_enforcement tools
      (skillMatch skillIndex message)).preflight_tools).filter
        fun r => !looksLikeToolError r.2).map (·.1) = [] := by
    have hnil : (preflightResults exec (resolve_skill_enforcement tools
        (skillMatch skillIndex message)).preflight_tools).filter
          (fun r => !looksLikeToolError r.2) = [] := by
      apply List.filter_eq_nil_iff.mpr
      intro r hr
      obtain ⟨n, hn, rfl⟩ := List.mem_map.mp hr
      simp [hpre n hn]
    rw [hnil]
    rfl
  rw [htu, hsucc]
  exact routeLoop_refusal_of_errors exec llm k 0 maxIter _ none hk
    (fun j hj => by rw [Nat.zero_add]; exact hcalls j hj)
    (fun j hj => by rw [Nat.zero_add]; exact herr j hj)
    (by rw [Nat.zero_add]; exact hfinal)

/-! ## C1 — requires_tool refusal -/

/-- C1: when the enforcement policy requires a tool and the per-turn
toolset is non-empty, if every tool execution of the turn (preflight and
in-loop) looks like an error and the ReAct loop reaches a final
(non-tool-call) response at iteration `k`, the router returns the specific
refusal string — not the model's answer — together with the accumulated
`tools_used` list (preflight names followed by every requested call). -/
theorem route_requires_tool_refusal (tools : List ToolDef)
    (skillIndex : List Skill) (message : String) (llm : Nat → LLMOutcome)
    (exec : String → String → String) (maxIter k : Nat)
    (hreq : (resolve_skill_enforcement tools
      (skillMatch skillIndex message)).requires_tool = true)
    (havail : (relevantToolsOf tools skillIndex message).isEmpty = false)
    (hk : k < maxIter)
    (hpre : ∀ n ∈ (resolve_skill_enforcement tools
        (skillMatch skillIndex message)).preflight_tools,
      looksLikeToolError (exec n "\x7b\x7d") = true)
    (hcalls : ∀ j < k, isToolCallResponse (llm j) = true)
    (herr : ∀ j < k, ∀ tc ∈ callsOf (llm j),
      looksLikeToolError (exec tc.name tc.args) = true)
    (hfinal : isFinalResponse (llm k) = true) :
    route_ollama tools skillIndex message llm exec maxIter =
      ⟨REFUSAL_NO_SUCCESS,
       (resolve_skill_enforcement tools
         (skillMatch skillIndex message)).preflight_tools ++ calledNames llm 0 k⟩ :=
  route_refusal_helper tools skillIndex message llm exec maxIter k hreq havail hk
    hpre hcalls herr hfinal

/-- The skill and oracles for the C1 witness: an HPC-monitoring skill that
requires `monitor_hpc_job`, and an LLM that answers immediately without
calling any tool. -/
def hpcSkill : Skill :=
  ⟨"hpc_monitor", ["hpc"], true, some true, ["monitor_hpc_job"], ["monitor_hpc_job"]⟩

/-- LLM oracle that always returns a final text answer. -/
def finalStopLLM : Nat → LLMOutcome := fun _ =>
  .success "stop" (some "hallucinated") []

/-- Witness for `route_requires_tool_refusal`: the skill matches "hpc 상태",
no tool is ever called, and the router refuses with empty `tools_used`. -/
theorem route_requires_tool_refusal_witness :
    ((resolve_skill_enforcement [⟨"monitor_hpc_job", ["job_id"]⟩]
        (skillMatch [hpcSkill] "hpc 상태")).requires_tool = true
      ∧ (relevantToolsOf [⟨"monitor_hpc_job", ["job_id"]⟩] [hpcSkill]
          "hpc 상태").isEmpty = false
      ∧ isFinalResponse (finalStopLLM 0) = true)
    ∧ route_ollama [⟨"monitor_hpc_job", ["job_id"]⟩] [hpcSkill] "hpc 상태"
        finalStopLLM (fun _ _ => "unused") 10 =
      ⟨REFUSAL_NO_SUCCESS,
       (resolve_skill_enforcement [⟨"monitor_hpc_job", ["job_id"]⟩]
         (skillMatch [hpcSkill] "hpc 상태")).preflight_tools ++
         calledNames finalStopLLM 0 0⟩ := by
  refine ⟨⟨by decide, by decide, rfl⟩, ?_⟩
  exact route_requires_tool_refusal [⟨"monitor_hpc_job", ["job_id"]⟩] [hpcSkill]
    "hpc 상태" finalStopLLM (fun _ _ => "unused") 10 0 (by decide) (by decide)
    (by omega) (by decide) (fun j hj => absurd hj (Nat.not_lt_zero j))
    (fun j hj => absurd hj (Nat.not_lt_zero j)) rfl

/-! ## C9 — the tool-error heuristic and its consequence -/

/-- C9: a tool invocation counts as successful iff its lowercased result
contains neither `"error"` (double- or single-quoted) nor both `tool '` and
`failed`; hence a well-formed payload that merely contains a quoted
`"error"` field is counted as failed, and a requires-tool turn whose only
tool results are such payloads ends in the refusal. -/
theorem tool_error_success_criterion :
    (∀ s : String, looksLikeToolError s = false ↔
      (containsSub (lowerChars s) ("\"error\"").toList = false
       ∧ containsSub (lowerChars s) ("'error'").toList = false
       ∧ (containsSub (lowerChars s) ("tool '").toList = false
          ∨ containsSub (lowerChars s) ("failed").toList = false)))
    ∧ looksLikeToolError "\x7b\"papers\": [], \"count\": 0, \"error\": null\x7d" = true
    ∧ (∀ (tools : List ToolDef) (skillIndex : List Skill) (message : String)
        (llm : Nat → LLMOutcome) (exec : String → String → String)
        (maxIter k : Nat),
        (resolve_skill_enforcement tools
          (skillMatch skillIndex message)).requires_tool = true →
        (relevantToolsOf tools skillIndex message).isEmpty = false →
        k < maxIter →
        (∀ n a, containsSub (lowerChars (exec n a)) ("\"error\"").toList = true) →
        (∀ j < k, isToolCallResponse (llm j) = true) →
        isFinalResponse (llm k) = true →
        route_ollama tools skillIndex message llm exec maxIter =
          ⟨REFUSAL_NO_SUCCESS,
           (resolve_skill_enforcement tools
             (skillMatch skillIndex message)).preflight_tools ++
             calledNames llm 0 k⟩) := by
  refine ⟨fun s => ?_, by decide,
    fun tools skillIndex message llm exec maxIter k hreq havail hk hjson hcalls
      hfinal => ?_⟩
  · simp only [looksLikeToolError]
    cases h1 : containsSub (lowerChars s) ("tool '").toList <;>
      cases h2 : containsSub (lowerChars s) ("failed").toList <;>
        cases h3 : containsSub (lowerChars s) ("\"error\"").toList <;>
          cases h4 : containsSub (lowerChars s) ("'error'").toList <;> simp
  · have herrall : ∀ n a, looksLikeToolError (exec n a) = true := by
      intro n a
      simp only [looksLikeToolError, Bool.or_eq_true]
      exact Or.inl (Or.inr (hjson n a))
    exact route_refusal_helper tools skillIndex message llm exec maxIter k hreq
      havail hk (fun n _ => herrall n _) hcalls
      (fun j _ tc _ => herrall tc.name tc.args) hfinal

/-- The skill and oracles for the C9 witness: a mail-digest skill whose
zero-argument chain tool is preflighted, and a tool that always answers
with a well-formed payload containing an `"error"` field. -/
def mailSkill : Skill :=
  ⟨"mail_digest", ["메일"], true, some true, ["fetch_mail_digest"], []⟩

/-- Tool executor whose every result is a payload with an error field. -/
def errorFieldExec : String → String → String := fun _ _ =>
  "\x7b\"digest\": [], \"error\": null\x7d"

/-- Witness for `tool_error_success_criterion`: the preflighted
`fetch_mail_digest` returns an error-field payload, so the turn ends in the
refusal while `tools_used` still lists the preflight execution. -/
theorem tool_error_success_criterion_witness :
    ((resolve_skill_enforcement [⟨"fetch_mail_digest", []⟩]
        (skillMatch [mailSkill] "메일 요약해줘")).requires_tool = true
      ∧ (relevantToolsOf [⟨"fetch_mail_digest", []⟩] [mailSkill]
          "메일 요약해줘").isEmpty = false
      ∧ (∀ n a : String, containsSub (lowerChars (errorFieldExec n a))
          ("\"error\"").toList = true))
    ∧ route_ollama [⟨"fetch_mail_digest", []⟩] [mailSkill] "메일 요약해줘"
        finalStopLLM errorFieldExec 10 =
      ⟨REFUSAL_NO_SUCCESS,
       (resolve_skill_enforcement [⟨"fetch_mail_digest", []⟩]
         (skillMatch [mailSkill] "메일 요약해줘")).preflight_tools ++
         calledNames finalStopLLM 0 0⟩ := by
  have hconst : ∀ n a : String, containsSub (lowerChars (errorFieldExec n a))
      ("\"error\"").toList = true := fun _ _ => by
    show containsSub (lowerChars "\x7b\"digest\": [], \"error\": null\x7d")
      ("\"error\"").toList = true
    decide
  refine ⟨⟨by decide, by decide, hconst⟩, ?_⟩
  exact tool_error_success_criterion.2.2 [⟨"fetch_mail_digest", []⟩] [mailSkill]
    "메일 요약해줘" finalStopLLM errorFieldExec 10 0 (by decide) (by decide)
    (by omega) hconst
    (fun j hj => absurd hj (Nat.not_lt_zero j)) rfl

/-! ## C4 — tools_used versus max_iterations -/

/-- LLM oracle for the C4 counterexample: every response requests eleven
tool calls at once. -/
def elevenCallLLM : Nat → LLMOutcome := fun _ =>
  .success "tool_calls" none (List.replicate 11 ⟨"1", "search_arxiv", ""⟩)

/-- C4 counterexample: with the default `max_iterations = 10`, a run whose
responses each carry eleven tool calls accumulates 110 entries in
`tools_used` — the loop bounds LLM rounds, not appended tool names. -/
theorem route_tools_used_counterexample :
    (route_ollama [] [] "hi" elevenCallLLM (fun _ _ => "ok") 10).tools_used.length
        = 110
    ∧ ¬((route_ollama [] [] "hi" elevenCallLLM
        (fun _ _ => "ok") 10).tools_used.length ≤ 10) := by
  constructor
  · rfl
  · decide

theorem routeLoop_length_bound (exec : String → String → String) (rt : Bool)
    (llm : Nat → LLMOutcome) (c : Nat)
    (hc : ∀ j, (callsOf (llm j)).length ≤ c) (fuel : Nat) :
    ∀ (iter : Nat) (tu succ : List String) (prev : Option String),
      (routeLoop exec rt llm iter fuel tu succ prev).tools_used.length ≤
        tu.length + c * fuel := by
  induction fuel with
  | zero =>
    intro iter tu succ prev
    simp [routeLoop]
  | succ f ih =>
    intro iter tu succ prev
    simp only [routeLoop]
    cases ho : llm iter with
    | authError =>
      show tu.length ≤ tu.length + c * (f + 1)
      exact Nat.le_add_right _ _
    | apiError m =>
      show tu.length ≤ tu.length + c * (f + 1)
      exact Nat.le_add_right _ _
    | success fr cnt tcs =>
      cases hb : isToolCallTurn fr tcs with
      | true =>
        simp only [hb, eq_self_iff_true, if_true]
        have h1 := ih (iter + 1) (tu ++ tcs.map (·.name))
          (succ ++ (tcs.filter fun tc =>
            !looksLikeToolError (exec tc.name tc.args)).map (·.name)) cnt
        have h2 : tcs.length ≤ c := by
          have hcc := hc iter
          rw [ho] at hcc
          exact hcc
        have h3 : (tu ++ tcs.map (·.name)).length = tu.length + tcs.length := by
          simp
        rw [h3] at h1
        rw [Nat.mul_succ]
        omega
      | false =>
        simp only [hb, Bool.false_eq_true, if_false]
        split
        · show tu.length ≤ tu.length + c * (f + 1)
          exact Nat.le_add_right _ _
        · show tu.length ≤ tu.length + c * (f + 1)
          exact Nat.le_add_right _ _

/-- C4 amended: `tools_used` collects the preflight tools plus every tool
call of every consumed LLM response, and the loop consumes at most
`max_iterations` responses; hence when each response requests at most `c`
calls, `len(tools_used) ≤ len(preflight_tools) + c * max_iterations`. The
claimed bound `max_iterations` itself holds only in the special case of no
preflight tools and at most one call per response, and is violated
otherwise (see the counterexample). -/
theorem route_tools_used_bound (tools : List ToolDef) (skillIndex : List Skill)
    (message : String) (llm : Nat → LLMOutcome)
    (exec : String → String → String) (maxIter c : Nat)
    (hc : ∀ j, (callsOf (llm j)).length ≤ c) :
    (route_ollama tools skillIndex message llm exec maxIter).tools_used.length ≤
      (resolve_skill_enforcement tools
        (skillMatch skillIndex message)).preflight_tools.length + c * maxIter := by
  simp only [route_ollama]
  split
  · simp
  · have hb := routeLoop_length_bound exec
      (resolve_skill_enforcement tools (skillMatch skillIndex message)).requires_tool
      llm c hc maxIter 0
      (resolve_skill_enforcement tools (skillMatch skillIndex message)).preflight_tools
      (((preflightResults exec (resolve_skill_enforcement tools
        (skillMatch skillIndex message)).preflight_tools).filter
          fun r => !looksLikeToolError r.2).map (·.1)) none
    rw [preflight_names]
    exact hb

/-- Witness for `route_tools_used_bound`: a pure-chat run (no skills, no
tools, final answer immediately) respects the amended bound with `c = 1`. -/
theorem route_tools_used_bound_witness :
    (∀ j, (callsOf (finalStopLLM j)).length ≤ 1)
    ∧ (route_ollama [] [] "hi" finalStopLLM
        (fun _ _ => "ok") 10).tools_used.length ≤
      (resolve_skill_enforcement []
        (skillMatch [] "hi")).preflight_tools.length + 1 * 10 :=
  ⟨fun _ => Nat.zero_le 1,
   route_tools_used_bound [] [] "hi" finalStopLLM (fun _ _ => "ok") 10 1
     (fun _ => Nat.zero_le 1)⟩

end Polaris
